import Mathlib

/-!
Shallow embedding of the Bitcoin script interpreter (src/lib.rs,
src/interpreter.rs, src/stack.rs) together with the scriptnum and
scriptbool codecs of the external `bitcoin` crate that the code calls
(`write_scriptint`, `read_scriptint_non_minimal`, `read_scriptbool`).

Bytes are modelled as `Nat` (meant `< 256`; theorems that need the bound
carry it as a hypothesis).  Stack items are byte strings (`List Nat`);
the stack keeps its top at the head of the list (Rust pushes/pops at the
end of the `Vec`).  The host-level faults that the interpreter can reach
today (the `todo!()` arm for OP_SUB and the catch-all `panic!` arm for
every other unsupported opcode) are modelled explicitly by a `fault`
outcome, distinct from the `Err(_)` results that `anyhow` returns.
-/

/-- A stack item: a byte string. -/
abbrev Item := List Nat

/-- The stack used during script execution (`Stack` in stack.rs).  The
top of the stack is the head of the list. -/
abbrev Stack := List Item

/-- The classified failures that `execute_script` can return as `Err(_)`
(they are `anyhow` string errors in the source; we type them). -/
inductive ScriptError : Type where
  /-- The instruction stream could not be decoded (the `ins?` at the top
  of the dispatch loop). -/
  | decodeError : ScriptError
  /-- The message string "called pop on an empty stack" from
  `Stack::pop_num`. -/
  | stackUnderflow : ScriptError
  /-- The error returned by `read_scriptint_non_minimal` on a byte
  string longer than four bytes. -/
  | numericOverflow : ScriptError
  /-- The message string "OP_RETURN" bailed from the dispatch loop. -/
  | opReturn : ScriptError
deriving DecidableEq, Repr

/-! ## The scriptnum codec (external `bitcoin` crate)

Modelled from the spec: the scriptnum codec used by `Stack::push_num` and
`Stack::pop_num` lives in the external `bitcoin` crate, not in this
repository.  Per spec section 3 it is a sign-magnitude, little-endian,
minimal encoder; the non-minimal-allowed decoder accepts any
sign-magnitude byte string of at most the scriptnum width (four bytes,
the 32-bit range assumed by the rest of the spec) and rejects longer
strings rather than truncating. -/

/-- Little-endian value of a byte string (the fold inside
`scriptint_parse`: it accumulates each byte shifted by 8 bits more than
the previous one). -/
def leValue : List Nat → Nat
  | [] => 0
  | b :: bs => b + 256 * leValue bs

/-- Modelled from the spec: `scriptint_parse` of the external `bitcoin`
crate.  Reads the byte string little-endian; if the most significant bit
of the final byte is set, that bit is masked away and the value negated
(sign-magnitude). -/
def scriptint_parse (v : List Nat) : Int :=
  let acc : Int := leValue v
  if Nat.testBit (v.getLastD 0) 7 then
    -(acc % 2 ^ (8 * v.length - 1))
  else
    acc

/-- Modelled from the spec: `read_scriptint_non_minimal` of the external
`bitcoin` crate (the decoder used by `Stack::pop_num`).  The empty
string decodes to zero; strings longer than four bytes are rejected with
a numeric-overflow error; everything else is parsed sign-magnitude with
no minimality requirement. -/
def read_scriptint_non_minimal (v : List Nat) : Except ScriptError Int :=
  if v.isEmpty then .ok 0
  else if 4 < v.length then .error .numericOverflow
  else .ok (scriptint_parse v)

/-- Modelled from the spec: the emitting loop of `write_scriptint` of
the external `bitcoin` crate, on the magnitude `a` (with `1 ≤ a`) and
the sign `neg`.  While the remaining magnitude exceeds `0xFF` it emits
the low byte; the final byte either absorbs the sign bit or, when its
top bit is already used by the magnitude, an extra sign byte is
appended. -/
def encLoop (a : Nat) (neg : Bool) : List Nat :=
  if h : 0xFF < a then
    (a % 256) :: encLoop (a / 256) neg
  else if Nat.testBit a 7 then
    [a, if neg then 0x80 else 0x00]
  else
    [a ||| (if neg then 0x80 else 0x00)]
termination_by a
decreasing_by exact Nat.div_lt_self (by omega) (by omega)

/-- Modelled from the spec: `write_scriptint` of the external `bitcoin`
crate (the minimal scriptnum encoder used by `Stack::push_num`).  Zero
encodes as the empty string; otherwise the magnitude is emitted
little-endian with the sign carried in the top bit of the final byte. -/
def write_scriptint (n : Int) : List Nat :=
  if n = 0 then []
  else encLoop n.natAbs (decide (n < 0))

/-- Modelled from the spec: `read_scriptbool` of the external `bitcoin`
crate.  An item reads as true unless it is empty or every byte is zero
except for an optional sign bit `0x80` in the final byte. -/
def read_scriptbool (v : List Nat) : Bool :=
  match v.getLast? with
  | some last => !((last &&& 0x7f == 0) && v.dropLast.all (· == 0))
  | none => false

/-! ## Stack (stack.rs)

Rust methods mutate `self`; here each operation returns the new stack,
and the fallible ones return the (possibly already mutated) stack
alongside the result, which is what the `Vec` in the interpreter holds
when the error is reported. -/

/-- Pushes bytes onto the stack (`Stack::push`). -/
def Stack.push (s : Stack) (bytes : Item) : Stack := bytes :: s

/-- Pushes a number onto the stack (`Stack::push_num`): encodes it with
`write_scriptint` and pushes the written bytes. -/
def Stack.push_num (s : Stack) (x : Int) : Stack :=
  s.push (write_scriptint x)

/-- Pushes a boolean onto the stack (`Stack::push_bool`): the single
byte `0x01` for true, the empty byte string for false. -/
def Stack.push_bool (s : Stack) (x : Bool) : Stack :=
  if x then s.push [0x01] else s.push []

/-- Pops the top item (`Stack::pop`), returning it with the remaining
stack, or `none` when empty. -/
def Stack.pop : Stack → Option (Item × Stack)
  | [] => none
  | item :: rest => some (item, rest)

/-- Pops the top item and decodes it as a scriptint
(`Stack::pop_num`).  The returned stack is the state of the `Vec` when
the function returns: on a decode failure the item has already been
popped. -/
def Stack.pop_num : Stack → (Except ScriptError Int) × Stack
  | [] => (.error .stackUnderflow, [])
  | item :: rest =>
    match read_scriptint_non_minimal item with
    | .ok n => (.ok n, rest)
    | .error e => (.error e, rest)

/-- Number of items on the stack (`Stack::len`). -/
def Stack.len (s : Stack) : Nat := s.length

/-- Peeks at the top item without removing it (`Stack::top`). -/
def Stack.top : Stack → Option Item
  | [] => none
  | item :: _ => some item

/-- Returns true if the stack is non-empty and the top item reads as a
true scriptbool (`Stack::is_true`). -/
def Stack.is_true (s : Stack) : Bool :=
  match s.top with
  | some top => read_scriptbool top
  | none => false

/-! ## Interpreter (interpreter.rs) -/

/-- A decoded instruction (`bitcoin::script::Instruction`): either a
data push with its literal payload or a single (non-push) opcode byte. -/
inductive Instruction : Type where
  | pushBytes (bs : List Nat) : Instruction
  | op (o : Nat) : Instruction
deriving DecidableEq, Repr

/-- One element of the lazily decoded instruction stream, as the
`Instructions` iterator of the external `bitcoin` crate yields it: a
decoded instruction or a decode error (which `ins?` propagates). -/
abbrev RawInstruction := Except Unit Instruction

/-- A script, modelled after decoding: the finite instruction stream the
external decoder produces from the script bytes. -/
abbrev Script := List RawInstruction

/-- Opcode byte of OP_RETURN. -/
def OP_RETURN : Nat := 0x6a

/-- Opcode byte of OP_PUSHNUM_NEG1. -/
def OP_PUSHNUM_NEG1 : Nat := 0x4f

/-- Opcode byte of OP_PUSHBYTES_0. -/
def OP_PUSHBYTES_0 : Nat := 0x00

/-- Opcode byte of OP_PUSHNUM_1 (the bytes 0x51 through 0x60 push the
constants 1 through 16). -/
def OP_PUSHNUM_1 : Nat := 0x51

/-- Opcode byte of OP_ADD. -/
def OP_ADD : Nat := 0x93

/-- Opcode byte of OP_SUB (reached but `todo!()` in the source). -/
def OP_SUB : Nat := 0x94

/-- Opcode byte of OP_EQUAL. -/
def OP_EQUAL : Nat := 0x87

/-- Opcode byte of OP_BOOLAND (one of the many opcodes with no handler
arm in the source's match). -/
def OP_BOOLAND : Nat := 0x9a

/-- Removes the top two stack items, adds them, and pushes the result
(`Interpreter::add`).  The first operand is popped before anything about
the second is known, so the returned stack reflects any items consumed
before a failure. -/
def Interpreter.add (s : Stack) : (Except ScriptError Unit) × Stack :=
  match s.pop_num with
  | (.ok a, s1) =>
    match s1.pop_num with
    | (.ok b, s2) => (.ok (), s2.push_num (a + b))
    | (.error e, s2) => (.error e, s2)
  | (.error e, s1) => (.error e, s1)

/-- Removes the top two stack items, compares them as decoded numbers,
and pushes the boolean result (`Interpreter::equal`). -/
def Interpreter.equal (s : Stack) : (Except ScriptError Unit) × Stack :=
  match s.pop_num with
  | (.ok a, s1) =>
    match s1.pop_num with
    | (.ok b, s2) => (.ok (), s2.push_bool (a == b))
    | (.error e, s2) => (.error e, s2)
  | (.error e, s1) => (.error e, s1)

/-- Result of executing one instruction or a prefix of the stream:
either the loop continues with a new stack, or the script failed with a
classified error (`bail!` / `?`), or the process crashed
(`todo!()` / `panic!`). -/
inductive StepResult : Type where
  | next (s : Stack) : StepResult
  | failed (e : ScriptError) : StepResult
  | crashed (msg : String) : StepResult
deriving DecidableEq, Repr

/-- Executes a single decoded instruction against the stack: the body of
the match in `Interpreter::execute_script`.  The opcode arms appear in
source order; the final arm is the source's
`other => panic!("opcode not yet supported: ...")`. -/
def execInstruction (s : Stack) : Instruction → StepResult
  | .pushBytes bs => .next (s.push bs)
  | .op o =>
    match o with
    | 0x6a => .failed .opReturn                      -- OP_RETURN: bail!
    | 0x4f => .next (s.push_num (-1))                -- OP_PUSHNUM_NEG1
    | 0x00 => .next (s.push [])                      -- OP_PUSHBYTES_0
    | 0x51 => .next (s.push_num 1)                   -- OP_PUSHNUM_1
    | 0x52 => .next (s.push_num 2)
    | 0x53 => .next (s.push_num 3)
    | 0x54 => .next (s.push_num 4)
    | 0x55 => .next (s.push_num 5)
    | 0x56 => .next (s.push_num 6)
    | 0x57 => .next (s.push_num 7)
    | 0x58 => .next (s.push_num 8)
    | 0x59 => .next (s.push_num 9)
    | 0x5a => .next (s.push_num 10)
    | 0x5b => .next (s.push_num 11)
    | 0x5c => .next (s.push_num 12)
    | 0x5d => .next (s.push_num 13)
    | 0x5e => .next (s.push_num 14)
    | 0x5f => .next (s.push_num 15)
    | 0x60 => .next (s.push_num 16)
    | 0x93 =>                                        -- OP_ADD: self.add()?
      (match Interpreter.add s with
       | (.ok _, s2) => .next s2
       | (.error e, _) => .failed e)
    | 0x94 => .crashed "not yet implemented"         -- OP_SUB: todo!()
    | 0x87 =>                                        -- OP_EQUAL: self.equal()?
      (match Interpreter.equal s with
       | (.ok _, s2) => .next s2
       | (.error e, _) => .failed e)
    | o => .crashed ("opcode not yet supported: " ++ toString o)

/-- Runs the dispatch loop of `Interpreter::execute_script` over the
instruction stream, starting from stack `s`.  A decode error from the
iterator is propagated by the `ins?`. -/
def execLoop (s : Stack) : Script → StepResult
  | [] => .next s
  | ins :: rest =>
    match ins with
    | .error _ => .failed .decodeError
    | .ok i =>
      match execInstruction s i with
      | .next s2 => execLoop s2 rest
      | .failed e => .failed e
      | .crashed msg => .crashed msg

/-- Outcome of `Interpreter::execute_script` as observed by the host:
`Ok(bool)`, `Err(_)`, or a process-terminating fault (a reached
`panic!` or `todo!`, which `Result` does not capture). -/
inductive Outcome : Type where
  | ok (b : Bool) : Outcome
  | err (e : ScriptError) : Outcome
  | fault (msg : String) : Outcome
deriving DecidableEq, Repr

/-- Executes the current script (`Interpreter::execute_script`): runs
the loop from a fresh empty stack and, if no instruction failed, returns
`Ok` of the final `is_true` reading. -/
def execute_script (script : Script) : Outcome :=
  match execLoop [] script with
  | .next s => .ok s.is_true
  | .failed e => .err e
  | .crashed msg => .fault msg

/-- Checks if the script is valid (`Interpreter::script_is_valid`):
collapses an `Err(_)` from `execute_script` to `false`.  A fault is not
an `Err` and escapes the `match`, so it remains a fault. -/
def script_is_valid (script : Script) : Outcome :=
  match execute_script script with
  | .ok res => .ok res
  | .err _ => .ok false
  | .fault msg => .fault msg

/-- Joins the script sig and the script pubkey into a single script
ready for execution (`join_parts` in lib.rs).  The byte-level
concatenation is transparent to decoding, so on decoded streams it is
list append. -/
def join_parts (script_sig script_pubkey : Script) : Script :=
  script_sig ++ script_pubkey

/-- Executes the script `script_sig | script_pubkey` (`execute` in
lib.rs). -/
def execute (script_sig script_pubkey : Script) : Outcome :=
  execute_script (join_parts script_sig script_pubkey)

/-- Checks if the script `script_sig | script_pubkey` is valid
(`is_valid` in lib.rs). -/
def is_valid (script_sig script_pubkey : Script) : Outcome :=
  script_is_valid (join_parts script_sig script_pubkey)

/-- An item that reads as boolean false: every byte zero except for an
optional sign bit 0x80 in the final byte (the empty string included).
This is the characterization the specification states; the theorem
below proves it matches `read_scriptbool`. -/
def isFalseyItem (t : Item) : Bool :=
  t.dropLast.all (· == 0) && (t.getLastD 0 == 0 || t.getLastD 0 == 0x80)

/-- The script of the `add` unit test and of spec section 8: push 5,
push 2, push 3, OP_ADD, OP_EQUAL.  The source test builds it with
`push_int`, which emits the OP_PUSHNUM opcodes for 1..16. -/
def addTestScript : Script :=
  [Except.ok (Instruction.op 0x55), Except.ok (Instruction.op 0x52),
   Except.ok (Instruction.op 0x53), Except.ok (Instruction.op 0x93),
   Except.ok (Instruction.op 0x87)]

theorem encLoop_hi (a : Nat) (neg : Bool) (h : 0xFF < a) :
    encLoop a neg = (a % 256) :: encLoop (a / 256) neg := by
  rw [encLoop]; simp [h]

theorem encLoop_lo7 (a : Nat) (neg : Bool) (h : a ≤ 0xFF) (h7 : Nat.testBit a 7 = true) :
    encLoop a neg = [a, if neg then 0x80 else 0x00] := by
  rw [encLoop]; simp [Nat.not_lt.mpr h, h7]

theorem encLoop_lo (a : Nat) (neg : Bool) (h : a ≤ 0xFF) (h7 : Nat.testBit a 7 = false) :
    encLoop a neg = [a ||| (if neg then 0x80 else 0x00)] := by
  rw [encLoop]; simp [Nat.not_lt.mpr h, h7]

theorem testBit7_eq (a : Nat) : Nat.testBit a 7 = decide (a / 128 % 2 = 1) := by
  rw [Nat.testBit_to_div_mod]

theorem testBit7_true_iff (a : Nat) : Nat.testBit a 7 = true ↔ a / 128 % 2 = 1 := by
  rw [testBit7_eq]; simp

theorem testBit7_false_iff (a : Nat) (h : a < 256) : Nat.testBit a 7 = false ↔ a < 128 := by
  rw [testBit7_eq]; simp; omega

set_option maxRecDepth 4096 in
theorem or128_eq (a : Nat) (h : a < 128) : a ||| 128 = a + 128 := by
  have H : ∀ b < 128, b ||| 128 = b + 128 := by decide
  exact H a h

theorem encLoop_ne_nil (a : Nat) (neg : Bool) : encLoop a neg ≠ [] := by
  rw [encLoop]
  split
  · simp
  · split <;> simp

theorem encLoop_length_pos (a : Nat) (neg : Bool) : 0 < (encLoop a neg).length :=
  List.length_pos.mpr (encLoop_ne_nil a neg)

-- last-byte helper
theorem lastD_cons (b : Nat) (l : List Nat) (h : l ≠ []) :
    (b :: l).getLastD 0 = l.getLastD 0 := by
  cases l with
  | nil => exact absurd rfl h
  | cons c cs => simp [List.getLastD_cons]

theorem lastD_mem (l : List Nat) (h : l ≠ []) : l.getLastD 0 ∈ l := by
  induction l with
  | nil => exact absurd rfl h
  | cons b bs ih =>
    cases bs with
    | nil => simp [List.getLastD_cons, List.getLastD_nil]
    | cons c cs =>
      rw [lastD_cons b (c :: cs) (by simp)]
      exact List.mem_cons_of_mem b (ih (by simp))

/-- The most significant bit of the final encoded byte records the sign. -/
theorem encLoop_last_testBit (a : Nat) (neg : Bool) :
    Nat.testBit ((encLoop a neg).getLastD 0) 7 = neg := by
  induction a using Nat.strong_induction_on with
  | _ a ih =>
    by_cases h : 0xFF < a
    · rw [encLoop_hi a neg h, lastD_cons _ _ (encLoop_ne_nil _ _)]
      exact ih (a / 256) (Nat.div_lt_self (by omega) (by omega))
    · push_neg at h
      by_cases h7 : Nat.testBit a 7 = true
      · rw [encLoop_lo7 a neg h h7]
        cases neg <;> simp [List.getLastD_cons, List.getLastD_nil] <;> decide
      · rw [encLoop_lo a neg h (by simpa using h7)]
        have ha : a < 128 := (testBit7_false_iff a (by omega)).mp (by simpa using h7)
        cases neg
        · simpa using h7
        · simp only [List.getLastD_cons, List.getLastD_nil, if_true]
          rw [or128_eq a ha, testBit7_true_iff]
          omega

/-- Little-endian value of the encoded magnitude: the magnitude itself,
plus the sign bit at the top of the final byte when negative. -/
theorem leValue_encLoop (a : Nat) (neg : Bool) :
    leValue (encLoop a neg) =
      a + (if neg then 128 * 256 ^ ((encLoop a neg).length - 1) else 0) := by
  induction a using Nat.strong_induction_on with
  | _ a ih =>
    by_cases h : 0xFF < a
    · rw [encLoop_hi a neg h]
      simp only [leValue, List.length_cons]
      rw [ih (a / 256) (Nat.div_lt_self (by omega) (by omega))]
      have hpos := encLoop_length_pos (a / 256) neg
      cases neg
      · simp
        omega
      · simp only [if_true]
        have hpow : 256 ^ ((encLoop (a / 256) true).length - 1) * 256
            = 256 ^ ((encLoop (a / 256) true).length + 1 - 1) := by
          rw [show (encLoop (a / 256) true).length + 1 - 1
              = ((encLoop (a / 256) true).length - 1) + 1 by omega, pow_succ]
        omega
    · push_neg at h
      by_cases h7 : Nat.testBit a 7 = true
      · rw [encLoop_lo7 a neg h h7]
        cases neg <;> simp [leValue]
      · rw [encLoop_lo a neg h (by simpa using h7)]
        have ha : a < 128 := (testBit7_false_iff a (by omega)).mp (by simpa using h7)
        cases neg
        · simp [leValue]
        · simp [leValue, or128_eq a ha]

/-- The magnitude always fits strictly below the sign-bit position of
the final encoded byte. -/
theorem encLoop_lt (a : Nat) (neg : Bool) :
    a < 2 ^ (8 * (encLoop a neg).length - 1) := by
  induction a using Nat.strong_induction_on with
  | _ a ih =>
    by_cases h : 0xFF < a
    · rw [encLoop_hi a neg h]
      simp only [List.length_cons]
      have h1 := ih (a / 256) (Nat.div_lt_self (by omega) (by omega))
      have hpos := encLoop_length_pos (a / 256) neg
      have hpow : 2 ^ (8 * (encLoop (a / 256) neg).length - 1) * 256
          = 2 ^ (8 * ((encLoop (a / 256) neg).length + 1) - 1) := by
        rw [show 8 * ((encLoop (a / 256) neg).length + 1) - 1
            = (8 * (encLoop (a / 256) neg).length - 1) + 8 by omega, pow_add]
        norm_num
      omega
    · push_neg at h
      by_cases h7 : Nat.testBit a 7 = true
      · rw [encLoop_lo7 a neg h h7]
        norm_num
        omega
      · rw [encLoop_lo a neg h (by simpa using h7)]
        have ha : a < 128 := (testBit7_false_iff a (by omega)).mp (by simpa using h7)
        norm_num
        omega

/-- If the magnitude fits below the sign-bit position of a `k`-byte
little-endian string, the encoding takes at most `k` bytes. -/
theorem encLoop_length_le (a : Nat) (neg : Bool) (k : Nat)
    (hk : a < 2 ^ (8 * k - 1)) (h1 : 1 ≤ a) : (encLoop a neg).length ≤ k := by
  induction a using Nat.strong_induction_on generalizing k with
  | _ a ih =>
    by_cases h : 0xFF < a
    · have hk2 : 2 ≤ k := by
        by_contra hlt
        push_neg at hlt
        interval_cases k <;> norm_num at hk <;> omega
      rw [encLoop_hi a neg h]
      simp only [List.length_cons]
      have hpow : 2 ^ (8 * (k - 1) - 1) * 256 = 2 ^ (8 * k - 1) := by
        rw [show 8 * k - 1 = (8 * (k - 1) - 1) + 8 by omega, pow_add]
        norm_num
      have hdiv : a / 256 < 2 ^ (8 * (k - 1) - 1) := by omega
      have := ih (a / 256) (Nat.div_lt_self (by omega) (by omega)) (k - 1) hdiv (by omega)
      omega
    · push_neg at h
      by_cases h7 : Nat.testBit a 7 = true
      · rw [encLoop_lo7 a neg h h7]
        have ha : 128 ≤ a := by
          have := (testBit7_true_iff a).mp h7
          omega
        have hk2 : 2 ≤ k := by
          by_contra hlt
          push_neg at hlt
          interval_cases k <;> norm_num at hk <;> omega
        simpa using hk2
      · rw [encLoop_lo a neg h (by simpa using h7)]
        have hk1 : 1 ≤ k := by
          by_contra hlt
          push_neg at hlt
          interval_cases k
          norm_num at hk
          omega
        simpa using hk1

/-- Decoding an encoded magnitude recovers the signed value. -/
theorem parse_encLoop (a : Nat) (neg : Bool) :
    scriptint_parse (encLoop a neg) = if neg then -(a : Int) else (a : Int) := by
  unfold scriptint_parse
  rw [encLoop_last_testBit a neg]
  cases neg
  · simp [leValue_encLoop]
  · simp only [if_true]
    rw [leValue_encLoop]
    simp only [if_true]
    have hpos := encLoop_length_pos a true
    have hsgn : (128 : Nat) * 256 ^ ((encLoop a true).length - 1)
        = 2 ^ (8 * (encLoop a true).length - 1) := by
      rw [show (128 : Nat) = 2 ^ 7 by norm_num, show (256 : Nat) = 2 ^ 8 by norm_num,
        ← pow_mul, ← pow_add]
      congr 1
      omega
    rw [hsgn]
    have hlt := encLoop_lt a true
    push_cast
    have hmod : ((a : Int) + 2 ^ (8 * (encLoop a true).length - 1))
        % 2 ^ (8 * (encLoop a true).length - 1)
        = (a : Int) % 2 ^ (8 * (encLoop a true).length - 1) := by
      have := @Int.add_mul_emod_self_left (a : Int)
        (2 ^ (8 * (encLoop a true).length - 1)) 1
      simpa using this
    rw [hmod, Int.emod_eq_of_lt (by positivity) (by exact_mod_cast hlt)]

/-- Encode-then-decode roundtrip for every value in the 32-bit scriptnum
range. -/
theorem read_write_scriptint (n : Int) (h : n.natAbs < 2 ^ 31) :
    read_scriptint_non_minimal (write_scriptint n) = .ok n := by
  by_cases h0 : n = 0
  · subst h0
    rfl
  · unfold write_scriptint read_scriptint_non_minimal
    rw [if_neg h0]
    have hne := encLoop_ne_nil n.natAbs (decide (n < 0))
    have hlen : (encLoop n.natAbs (decide (n < 0))).length ≤ 4 := by
      refine encLoop_length_le _ _ 4 ?_ ?_
      · norm_num
        exact h
      · omega
    rw [if_neg (by simpa [List.isEmpty_iff] using hne), if_neg (by omega)]
    rw [parse_encLoop]
    by_cases hneg : n < 0
    · rw [if_pos (by simpa using hneg)]
      congr 1
      omega
    · rw [if_neg (by simpa using hneg)]
      congr 1
      omega

/-- A byte string whose final byte has a clear top bit reads below the
sign-bit position. -/
theorem leValue_lt_of_last (v : List Nat) (hb : ∀ b ∈ v, b < 256)
    (hl : v.getLastD 0 < 128) : leValue v < 2 ^ (8 * v.length - 1) := by
  induction v with
  | nil => simp [leValue]
  | cons b bs ih =>
    cases bs with
    | nil =>
      simp only [leValue, List.length_cons, List.length_nil]
      have : b < 128 := by
        simpa [List.getLastD_cons, List.getLastD_nil] using hl
      norm_num
      omega
    | cons c cs =>
      have hlast : (b :: c :: cs).getLastD 0 = (c :: cs).getLastD 0 :=
        lastD_cons b (c :: cs) (by simp)
      have h1 := ih (fun x hx => hb x (List.mem_cons_of_mem b hx)) (hlast ▸ hl)
      have hbb := hb b (List.mem_cons_self b (c :: cs))
      simp only [leValue, List.length_cons] at h1 ⊢
      have hpow : 2 ^ (8 * (cs.length + 1) - 1) * 256 = 2 ^ (8 * (cs.length + 1 + 1) - 1) := by
        rw [show 8 * (cs.length + 1 + 1) - 1 = (8 * (cs.length + 1) - 1) + 8 by omega, pow_add]
        norm_num
      omega

/-- Every value the non-minimal decoder accepts from valid bytes lies in
the 32-bit scriptnum range. -/
theorem read_ok_bound (v : List Nat) (hb : ∀ b ∈ v, b < 256) (n : Int)
    (hn : read_scriptint_non_minimal v = .ok n) : n.natAbs < 2 ^ 31 := by
  unfold read_scriptint_non_minimal at hn
  by_cases hemp : v.isEmpty
  · rw [if_pos hemp] at hn
    cases hn
    decide
  · rw [if_neg hemp] at hn
    by_cases hlong : 4 < v.length
    · rw [if_pos hlong] at hn
      cases hn
    · rw [if_neg hlong] at hn
      push_neg at hlong
      have hvne : v ≠ [] := by simpa [List.isEmpty_iff] using hemp
      have hlen1 : 1 ≤ v.length := List.length_pos.mpr hvne
      have hMle : (2 : Int) ^ (8 * v.length - 1) ≤ 2 ^ 31 := by
        apply pow_le_pow_right₀ (by norm_num)
        omega
      unfold scriptint_parse at hn
      simp only at hn
      by_cases h7 : Nat.testBit (v.getLastD 0) 7
      · rw [if_pos h7] at hn
        cases hn
        have hM : (0 : Int) < 2 ^ (8 * v.length - 1) := by positivity
        have h1 := Int.emod_nonneg (leValue v : Int) (ne_of_gt hM)
        have h2 := Int.emod_lt_of_pos (leValue v : Int) hM
        omega
      · rw [if_neg h7] at hn
        cases hn
        have hlast : v.getLastD 0 < 128 := by
          have hmem := lastD_mem v hvne
          have := hb _ hmem
          exact (testBit7_false_iff _ this).mp (by simpa using h7)
        have := leValue_lt_of_last v hb hlast
        have hcast : (leValue v : Int) < 2 ^ (8 * v.length - 1) := by exact_mod_cast this
        omega

/-- Running the dispatch loop over a concatenation: run the first part;
only if it finishes normally does the second part run. -/
theorem execLoop_append (s : Stack) (l1 l2 : Script) :
    execLoop s (l1 ++ l2) =
      match execLoop s l1 with
      | .next s2 => execLoop s2 l2
      | .failed e => .failed e
      | .crashed msg => .crashed msg := by
  induction l1 generalizing s with
  | nil => simp [execLoop]
  | cons ins rest ih =>
    cases ins with
    | error e => simp [execLoop]
    | ok i =>
      simp only [List.cons_append, execLoop]
      cases execInstruction s i with
      | next s2 => exact ih s2
      | failed e => rfl
      | crashed msg => rfl

/-- Small positive constants encode as their single literal byte. -/
theorem write_scriptint_small (n : Int) (h1 : 1 ≤ n) (h2 : n < 128) :
    write_scriptint n = [n.toNat] := by
  unfold write_scriptint
  rw [if_neg (by omega)]
  have hna : n.natAbs < 128 := by omega
  have h7 : Nat.testBit n.natAbs 7 = false := (testBit7_false_iff _ (by omega)).mpr hna
  rw [encLoop_lo _ _ (by omega) h7]
  have : decide (n < 0) = false := by simp; omega
  rw [this]
  simp
  omega

theorem ws_2_pow_31 : write_scriptint (2 ^ 31) = [0, 0, 0, 0x80, 0] := by
  rw [write_scriptint]
  norm_num
  rw [encLoop_hi _ _ (by norm_num)]
  norm_num
  rw [encLoop_hi _ _ (by norm_num)]
  norm_num
  rw [encLoop_hi _ _ (by norm_num)]
  norm_num
  rw [encLoop_lo7 _ _ (by norm_num) (by decide)]
  norm_num

theorem ws2 : write_scriptint 2 = [2] := by
  rw [write_scriptint_small 2 (by norm_num) (by norm_num)]
  rfl

theorem ws3 : write_scriptint 3 = [3] := by
  rw [write_scriptint_small 3 (by norm_num) (by norm_num)]
  rfl

theorem ws5 : write_scriptint 5 = [5] := by
  rw [write_scriptint_small 5 (by norm_num) (by norm_num)]
  rfl

set_option maxRecDepth 16384 in
theorem and127_eq (b : Nat) (h : b < 256) : (b &&& 127 == 0) = (b == 0 || b == 128) := by
  have H : ∀ c < 256, ((c &&& 127 == 0) = (c == 0 || c == 128)) := by decide
  exact H b h

/-- C1: the claim says an unsupported opcode yields a classified
UnsupportedOpcode error and never a panic; the code instead reaches the
`panic!` catch-all arm (and `todo!()` for OP_SUB), a host fault. -/
theorem unsupported_opcode_panics :
    execute [] [Except.ok (Instruction.op OP_BOOLAND)]
      = Outcome.fault "opcode not yet supported: 154"
    ∧ execute [] [Except.ok (Instruction.op OP_SUB)]
      = Outcome.fault "not yet implemented" :=
  ⟨rfl, rfl⟩

/-- C2: the claim says is_valid is total and collapses every failure to
false; `Err(_)` results are indeed collapsed (second conjunct), but the
panic reached on an unsupported opcode escapes `script_is_valid`
uncaught (first conjunct), so the function is not total. -/
theorem is_valid_not_total_on_unsupported :
    is_valid [] [Except.ok (Instruction.op OP_BOOLAND)]
      = Outcome.fault "opcode not yet supported: 154"
    ∧ is_valid [] [Except.ok (Instruction.op OP_RETURN)] = Outcome.ok false :=
  ⟨rfl, rfl⟩

/-- C3 counterexample: `2 ^ 31` is representable in i64, but its
encoding takes five bytes, which `pop_num`'s decoder rejects, so
`decode (encode n) = n` fails there. -/
theorem scriptnum_roundtrip_fails_at_2_pow_31 :
    Stack.pop_num (Stack.push_num [] (2 ^ 31))
      = (Except.error ScriptError.numericOverflow, []) := by
  have h1 : Stack.push_num [] (2 ^ 31) = [[0, 0, 0, 0x80, 0]] := by
    unfold Stack.push_num Stack.push
    rw [ws_2_pow_31]
  rw [h1]
  rfl

/-- C3 (amended): encoding with `push_num` and decoding with `pop_num`
roundtrips for every integer of magnitude at most `2 ^ 31 - 1`, the
32-bit scriptnum range, and neither step faults. -/
theorem scriptnum_roundtrip_32bit (s : Stack) (n : Int) (h : n.natAbs ≤ 2 ^ 31 - 1) :
    Stack.pop_num (Stack.push_num s n) = (Except.ok n, s) := by
  simp only [Stack.push_num, Stack.push, Stack.pop_num]
  rw [read_write_scriptint n (by omega)]

/-- Witness for the amended C3 theorem at `n = -5`. -/
theorem scriptnum_roundtrip_32bit_witness :
    ((-5 : Int)).natAbs ≤ 2 ^ 31 - 1
    ∧ Stack.pop_num (Stack.push_num [[7]] (-5)) = (Except.ok (-5), [[7]]) :=
  ⟨by norm_num, scriptnum_roundtrip_32bit [[7]] (-5) (by norm_num)⟩

/-- C4 counterexample: with one item on the stack, OP_ADD reports the
underflow on the second pop only after the first item has already been
removed, so the stack is not left as it was. -/
theorem add_mutates_stack_before_underflow :
    Interpreter.add [[0x01]] = (Except.error ScriptError.stackUnderflow, [])
    ∧ (([] : Stack) ≠ [[0x01]]) :=
  ⟨rfl, by decide⟩

/-- C4 (amended): with fewer than two items, OP_ADD and OP_EQUAL still
fail with an error, but not atomically: any item popped before the
failure stays popped, leaving the tail of the original stack. -/
theorem add_equal_error_below_two_items (s : Stack) (h : s.length < 2) :
    (∃ e, (Interpreter.add s).1 = Except.error e) ∧ (Interpreter.add s).2 = s.tail
    ∧ (∃ e, (Interpreter.equal s).1 = Except.error e) ∧ (Interpreter.equal s).2 = s.tail := by
  match s with
  | [] => exact ⟨⟨.stackUnderflow, rfl⟩, rfl, ⟨.stackUnderflow, rfl⟩, rfl⟩
  | [x] =>
    simp only [Interpreter.add, Interpreter.equal, Stack.pop_num]
    cases hread : read_scriptint_non_minimal x with
    | ok a => exact ⟨⟨.stackUnderflow, rfl⟩, rfl, ⟨.stackUnderflow, rfl⟩, rfl⟩
    | error e => exact ⟨⟨e, rfl⟩, rfl, ⟨e, rfl⟩, rfl⟩
  | x :: y :: rest =>
    exfalso
    simp only [List.length_cons] at h
    omega

/-- Witness for the amended C4 theorem at the single-item stack. -/
theorem add_equal_error_below_two_items_witness :
    ([[0x01]] : Stack).length < 2
    ∧ ((∃ e, (Interpreter.add [[0x01]]).1 = Except.error e)
      ∧ (Interpreter.add [[0x01]]).2 = ([[0x01]] : Stack).tail
      ∧ (∃ e, (Interpreter.equal [[0x01]]).1 = Except.error e)
      ∧ (Interpreter.equal [[0x01]]).2 = ([[0x01]] : Stack).tail) :=
  ⟨by decide, add_equal_error_below_two_items [[0x01]] (by decide)⟩

/-- C5: OP_ADD pops two operands, pushes the scriptnum encoding of
their exact integer sum, underflows with fewer than two decodable
items, reports the decoder's error when either popped operand is
malformed (whether the first popped or the second popped one), and
validates the push-5-2-3-ADD-EQUAL script. -/
theorem op_add_semantics :
    (Interpreter.add [] = (Except.error ScriptError.stackUnderflow, []))
    ∧ (∀ (x : Item) (a : Int), read_scriptint_non_minimal x = Except.ok a →
        Interpreter.add [x] = (Except.error ScriptError.stackUnderflow, []))
    ∧ (∀ (x : Item) (s : Stack),
        read_scriptint_non_minimal x = Except.error ScriptError.numericOverflow →
        Interpreter.add (x :: s) = (Except.error ScriptError.numericOverflow, s))
    ∧ (∀ (x y : Item) (s : Stack) (a : Int),
        read_scriptint_non_minimal x = Except.ok a →
        read_scriptint_non_minimal y = Except.error ScriptError.numericOverflow →
        Interpreter.add (x :: y :: s) = (Except.error ScriptError.numericOverflow, s))
    ∧ (∀ (x y : Item) (s : Stack) (a b : Int),
        read_scriptint_non_minimal x = Except.ok a →
        read_scriptint_non_minimal y = Except.ok b →
        Interpreter.add (x :: y :: s) = (Except.ok (), Stack.push_num s (a + b)))
    ∧ is_valid [] addTestScript = Outcome.ok true := by
  refine ⟨rfl, ?_, ?_, ?_, ?_, ?_⟩
  · intro x a hx
    simp only [Interpreter.add, Stack.pop_num, hx]
  · intro x s hx
    simp only [Interpreter.add, Stack.pop_num, hx]
  · intro x y s a hx hy
    simp only [Interpreter.add, Stack.pop_num, hx, hy]
  · intro x y s a b hx hy
    simp only [Interpreter.add, Stack.pop_num, hx, hy]
  · norm_num [is_valid, script_is_valid, execute_script, join_parts, addTestScript,
      execLoop, execInstruction, Stack.push_num, Stack.push, ws2, ws3, ws5,
      Interpreter.add, Interpreter.equal, Stack.pop_num, Stack.push_bool,
      read_scriptint_non_minimal, scriptint_parse, leValue, testBit7_eq,
      Stack.is_true, Stack.top, read_scriptbool]

/-- Witness for C5 applying the quantified conjuncts at concrete
operands: a successful addition, and a malformed (five-byte) second
popped operand. -/
theorem op_add_semantics_witness :
    read_scriptint_non_minimal [5] = Except.ok 5
    ∧ read_scriptint_non_minimal [2] = Except.ok 2
    ∧ read_scriptint_non_minimal [1, 1, 1, 1, 1] = Except.error ScriptError.numericOverflow
    ∧ Interpreter.add [[5], [2], [9]] = (Except.ok (), Stack.push_num [[9]] (5 + 2))
    ∧ Interpreter.add [[5], [1, 1, 1, 1, 1], [9]]
        = (Except.error ScriptError.numericOverflow, [[9]]) :=
  ⟨rfl, rfl, rfl,
    op_add_semantics.2.2.2.2.1 [5] [2] [[9]] 5 2 rfl rfl,
    op_add_semantics.2.2.2.1 [5] [1, 1, 1, 1, 1] [[9]] 5 rfl rfl⟩

/-- C6: OP_EQUAL compares its two operands as decoded numbers and
pushes the canonical boolean encoding (byte 0x01 or empty); `0x00` and
the empty string compare equal. -/
theorem op_equal_numeric_semantics :
    (∀ (x y : Item) (s : Stack) (a b : Int),
        read_scriptint_non_minimal x = Except.ok a →
        read_scriptint_non_minimal y = Except.ok b →
        Interpreter.equal (x :: y :: s)
          = (Except.ok (), (if a == b then [0x01] else ([] : Item)) :: s))
    ∧ Interpreter.equal [[0x00], []] = (Except.ok (), [[0x01]])
    ∧ Interpreter.equal [[0x01], [0x02]] = (Except.ok (), [([] : Item)]) := by
  refine ⟨?_, rfl, rfl⟩
  intro x y s a b hx hy
  simp only [Interpreter.equal, Stack.pop_num, hx, hy, Stack.push_bool, Stack.push]
  cases h : a == b <;> simp [h]

/-- Witness for C6 applying the quantified conjunct at equal concrete
operands. -/
theorem op_equal_numeric_semantics_witness :
    read_scriptint_non_minimal [5] = Except.ok 5
    ∧ Interpreter.equal [[5], [5], [7]]
        = (Except.ok (), (if (5 : Int) == 5 then [0x01] else ([] : Item)) :: [[7]]) :=
  ⟨rfl, op_equal_numeric_semantics.1 [5] [5] [[7]] 5 5 rfl rfl⟩

/-- C7 counterexample: a script containing OP_RETURN preceded by an
unsupported opcode faults (panics) before the abort is reached, so it
does not return an error and `is_valid` does not return false. -/
theorem op_return_preceded_by_unsupported_faults :
    execute [] [Except.ok (Instruction.op OP_BOOLAND), Except.ok (Instruction.op OP_RETURN)]
      = Outcome.fault "opcode not yet supported: 154"
    ∧ is_valid [] [Except.ok (Instruction.op OP_BOOLAND), Except.ok (Instruction.op OP_RETURN)]
      = Outcome.fault "opcode not yet supported: 154" :=
  ⟨rfl, rfl⟩

/-- C7 (amended): whenever execution reaches OP_RETURN — every earlier
instruction executed normally — `execute` fails with the OP_RETURN
error and `is_valid` returns false, whatever the stack holds and
whatever instructions or data follow the abort. -/
theorem op_return_aborts_when_reached (sig pk pre post : Script) (s : Stack)
    (hsplit : join_parts sig pk = pre ++ Except.ok (Instruction.op OP_RETURN) :: post)
    (hpre : execLoop [] pre = StepResult.next s) :
    execute sig pk = Outcome.err ScriptError.opReturn
    ∧ is_valid sig pk = Outcome.ok false := by
  have hrun : execLoop [] (join_parts sig pk) = StepResult.failed ScriptError.opReturn := by
    rw [hsplit, execLoop_append, hpre]
    rfl
  have hex : execute sig pk = Outcome.err ScriptError.opReturn := by
    unfold execute execute_script
    rw [hrun]
  refine ⟨hex, ?_⟩
  unfold is_valid script_is_valid
  unfold execute at hex
  rw [hex]

/-- Witness for the amended C7 theorem: OP_RETURN as the whole
unlocking script, trailing push data in the locking script. -/
theorem op_return_aborts_when_reached_witness :
    join_parts [Except.ok (Instruction.op OP_RETURN)] [Except.ok (Instruction.pushBytes [0xab, 32])]
      = [] ++ Except.ok (Instruction.op OP_RETURN) :: [Except.ok (Instruction.pushBytes [0xab, 32])]
    ∧ execLoop [] [] = StepResult.next []
    ∧ (execute [Except.ok (Instruction.op OP_RETURN)] [Except.ok (Instruction.pushBytes [0xab, 32])]
        = Outcome.err ScriptError.opReturn
      ∧ is_valid [Except.ok (Instruction.op OP_RETURN)] [Except.ok (Instruction.pushBytes [0xab, 32])]
        = Outcome.ok false) :=
  ⟨rfl, rfl,
    op_return_aborts_when_reached [Except.ok (Instruction.op OP_RETURN)]
      [Except.ok (Instruction.pushBytes [0xab, 32])] []
      [Except.ok (Instruction.pushBytes [0xab, 32])] [] rfl rfl⟩

/-- C8: `is_true` is false on the empty stack and otherwise reads the
top item as a boolean, which is false exactly on all-zero items with an
optional sign bit in the final byte. -/
theorem is_true_characterization :
    (Stack.is_true [] = false)
    ∧ (∀ (t : Item) (s : Stack), (∀ b ∈ t, b < 256) →
        Stack.is_true (t :: s) = !(isFalseyItem t))
    ∧ Stack.is_true [([] : Item)] = false
    ∧ Stack.is_true [[0x00]] = false
    ∧ Stack.is_true [[0x80]] = false
    ∧ Stack.is_true [[0x01]] = true := by
  refine ⟨rfl, ?_, rfl, rfl, rfl, rfl⟩
  intro t s hb
  show read_scriptbool t = !(isFalseyItem t)
  cases ht : t.getLast? with
  | none =>
    have : t = [] := by
      cases t with
      | nil => rfl
      | cons x xs => simp [List.getLast?_eq_getLast] at ht
    subst this
    rfl
  | some last =>
    have htne : t ≠ [] := by
      intro hnil
      subst hnil
      simp at ht
    have hlastD : t.getLastD 0 = last := by
      rw [List.getLastD_eq_getLast?, ht]
      rfl
    have hmem : last ∈ t := by
      rw [← hlastD]
      exact lastD_mem t htne
    have hlt := hb last hmem
    unfold read_scriptbool isFalseyItem
    rw [ht, hlastD]
    show (!(last &&& 127 == 0 && (List.dropLast t).all fun x => x == 0)) = _
    rw [and127_eq last hlt, Bool.and_comm]

/-- Witness for C8 applying the quantified conjunct at the negative-zero
item `[0x00, 0x80]`. -/
theorem is_true_characterization_witness :
    (∀ b ∈ ([0x00, 0x80] : Item), b < 256)
    ∧ Stack.is_true [[0x00, 0x80]] = !(isFalseyItem [0x00, 0x80]) :=
  ⟨by decide, is_true_characterization.2.1 [0x00, 0x80] [] (by decide)⟩

/-- C9: two operands accepted by `pop_num`'s decoder are each below
`2 ^ 31` in magnitude, so their exact sum stays strictly inside the i64
range (no overflow), and the `push_num` encoding of the sum fits the
8-byte buffer `write_scriptint` writes into. -/
theorem add_operands_no_overflow (v1 v2 : Item) (a b : Int)
    (hb1 : ∀ x ∈ v1, x < 256) (hb2 : ∀ x ∈ v2, x < 256)
    (h1 : read_scriptint_non_minimal v1 = Except.ok a)
    (h2 : read_scriptint_non_minimal v2 = Except.ok b) :
    (-(2 ^ 63) ≤ a + b ∧ a + b < 2 ^ 63)
    ∧ (write_scriptint (a + b)).length ≤ 8 := by
  have ha := read_ok_bound v1 hb1 a h1
  have hbb := read_ok_bound v2 hb2 b h2
  norm_num at ha hbb
  constructor
  · constructor <;> norm_num <;> omega
  · by_cases h0 : a + b = 0
    · rw [h0]
      simp [write_scriptint]
    · unfold write_scriptint
      rw [if_neg h0]
      refine le_trans (encLoop_length_le _ _ 5 ?_ (by omega)) (by norm_num)
      norm_num
      omega

/-- Witness for C9 at the extreme 4-byte operands `-(2^31 - 1)` and
`2^31 - 1`. -/
theorem add_operands_no_overflow_witness :
    (∀ x ∈ ([0xff, 0xff, 0xff, 0xff] : Item), x < 256)
    ∧ read_scriptint_non_minimal [0xff, 0xff, 0xff, 0xff] = Except.ok (-(2 ^ 31 - 1))
    ∧ read_scriptint_non_minimal [0xff, 0xff, 0xff, 0x7f] = Except.ok (2 ^ 31 - 1)
    ∧ ((-(2 ^ 63) ≤ (-(2 ^ 31 - 1) : Int) + (2 ^ 31 - 1)
        ∧ (-(2 ^ 31 - 1) : Int) + (2 ^ 31 - 1) < 2 ^ 63)
      ∧ (write_scriptint ((-(2 ^ 31 - 1) : Int) + (2 ^ 31 - 1))).length ≤ 8) := by
  refine ⟨by decide, by norm_num [read_scriptint_non_minimal, scriptint_parse, leValue, testBit7_eq], by
    norm_num [read_scriptint_non_minimal, scriptint_parse, leValue, testBit7_eq], ?_⟩
  exact add_operands_no_overflow [0xff, 0xff, 0xff, 0xff] [0xff, 0xff, 0xff, 0x7f] _ _
    (by decide) (by decide)
    (by norm_num [read_scriptint_non_minimal, scriptint_parse, leValue, testBit7_eq])
    (by norm_num [read_scriptint_non_minimal, scriptint_parse, leValue, testBit7_eq])

/-- C10: execution is deterministic — the embedding is a pure function
of the two scripts, two runs agree on outcome and on the final loop
state, and `is_valid` is determined by `execute` pointwise. -/
theorem execution_deterministic (sig pk : Script) :
    execute sig pk = execute sig pk
    ∧ execLoop [] (join_parts sig pk) = execLoop [] (join_parts sig pk)
    ∧ is_valid sig pk =
        (match execute sig pk with
         | Outcome.ok b => Outcome.ok b
         | Outcome.err _ => Outcome.ok false
         | Outcome.fault msg => Outcome.fault msg) :=
  ⟨rfl, rfl, rfl⟩
